import Mathlib

/-!
Verification of the `array_vector_space` library (src/lib.rs).

The library defines two traits, `ArrayVectorSpace` (owning operations) and
`ArrayVectorSpaceMut` (in-place operations), implemented for the scalar
floating-point leaf types f32/f64 and, recursively, for fixed-size arrays
`[V; N]` of any implementing element type `V`.

Embedding: a value of the abstraction is indexed by its static `Shape`
(a scalar leaf, or an array of `n` same-shape sub-values).  The scalar
primitives of the leaf type (the `+ - * /` operators, `sqrt`, `recip`,
`clamp`, and the literals `0.0` / `1.0`) are collected in an opaque
record `ScalarOps`, so every theorem proved for all `ScalarOps` holds for
the concrete IEEE f32/f64 primitives, whatever bit patterns they return.
Concrete instantiations over ℚ (exact, decidable) and ℝ (with a genuine
square root, for the normalization claims) are provided.
-/

namespace AVS

/-- Static shape of a value of the abstraction: a scalar leaf, or a
fixed-size array of `n` sub-values of a common shape (Rust `[V; N]`). -/
inductive Shape : Type where
  | leaf : Shape
  | arr : Nat → Shape → Shape

/-- The scalar primitives of a floating-point leaf type (f32 or f64),
kept opaque: `sadd/ssub/smul/sdiv` are the native `+ - * /`, `ssqrt` is
`sqrt`, `srecip` is `recip`, `sclamp v lo hi` is the std `clamp`
primitive, `szero`/`sone` are the literals `0.0` / `1.0`. -/
structure ScalarOps (T : Type) where
  sadd : T → T → T
  ssub : T → T → T
  smul : T → T → T
  sdiv : T → T → T
  ssqrt : T → T
  srecip : T → T
  sclamp : T → T → T → T
  szero : T
  sone : T

/-- Values of the abstraction: a leaf of shape `Shape.leaf` is a bare
scalar, a value of shape `Shape.arr n s` is a length-`n` list of values
of shape `s` (Rust `[V; N]`, length statically fixed). -/
@[reducible] def Val (T : Type) : Shape → Type
  | Shape.leaf => T
  | Shape.arr n s => { l : List (Val T s) // l.length = n }

variable {T : Type}

/-- `ArrayVectorSpace::dot` (src/lib.rs lines 21-23 and 47-52): leaf is
`self * rhs`; array zips the two operands, maps `dot` over the pairs and
folds with `+` from `0.0`, left to right. -/
def dot (ops : ScalarOps T) : {s : Shape} → Val T s → Val T s → T
  | Shape.leaf, a, b => ops.smul a b
  | Shape.arr _ _, x, y =>
      ((x.1.zip y.1).map fun p => dot ops p.1 p.2).foldl ops.sadd ops.szero

/-- `ArrayVectorSpace::norm2` (src/lib.rs lines 3-8): provided trait
method, `self.dot(self)` for every implementing type. -/
def norm2 (ops : ScalarOps T) {s : Shape} (x : Val T s) : T :=
  dot ops x x

/-- `ArrayVectorSpace::add` (src/lib.rs lines 24-26 and 53-58). -/
def add (ops : ScalarOps T) : {s : Shape} → Val T s → Val T s → Val T s
  | Shape.leaf, a, b => ops.sadd a b
  | Shape.arr _ _, x, y =>
      ⟨List.zipWith (add ops) x.1 y.1, by simp [x.2, y.2]⟩

/-- `ArrayVectorSpace::sub` (src/lib.rs lines 27-29 and 59-64). -/
def sub (ops : ScalarOps T) : {s : Shape} → Val T s → Val T s → Val T s
  | Shape.leaf, a, b => ops.ssub a b
  | Shape.arr _ _, x, y =>
      ⟨List.zipWith (sub ops) x.1 y.1, by simp [x.2, y.2]⟩

/-- `ArrayVectorSpace::mul` (src/lib.rs lines 30-32 and 65-70). -/
def mul (ops : ScalarOps T) : {s : Shape} → Val T s → Val T s → Val T s
  | Shape.leaf, a, b => ops.smul a b
  | Shape.arr _ _, x, y =>
      ⟨List.zipWith (mul ops) x.1 y.1, by simp [x.2, y.2]⟩

/-- `ArrayVectorSpace::div` (src/lib.rs lines 33-35 and 71-76). -/
def div (ops : ScalarOps T) : {s : Shape} → Val T s → Val T s → Val T s
  | Shape.leaf, a, b => ops.sdiv a b
  | Shape.arr _ _, x, y =>
      ⟨List.zipWith (div ops) x.1 y.1, by simp [x.2, y.2]⟩

/-- `ArrayVectorSpace::scal_mul` (src/lib.rs lines 36-38 and 77-80):
leaf is `self * rhs`; array passes the scalar unchanged to every
sub-element. -/
def scal_mul (ops : ScalarOps T) : {s : Shape} → Val T s → T → Val T s
  | Shape.leaf, a, k => ops.smul a k
  | Shape.arr _ _, x, k =>
      ⟨x.1.map fun v => scal_mul ops v k, by simp [x.2]⟩

/-- `ArrayVectorSpace::clamp` (src/lib.rs lines 39-41 and 81-84): leaf
delegates to the std scalar clamp primitive; array passes the same
bounds to every sub-element. -/
def clamp (ops : ScalarOps T) : {s : Shape} → Val T s → T → T → Val T s
  | Shape.leaf, a, lo, hi => ops.sclamp a lo hi
  | Shape.arr _ _, x, lo, hi =>
      ⟨x.1.map fun v => clamp ops v lo hi, by simp [x.2]⟩

/-- `ArrayVectorSpace::normalized` (src/lib.rs lines 42-44 and 85-88):
leaf returns the literal `1.0`; array computes `n = norm2(self).sqrt()`
and returns `self.scal_mul(n.recip())`. -/
def normalized (ops : ScalarOps T) : {s : Shape} → Val T s → Val T s
  | Shape.leaf, _ => ops.sone
  | Shape.arr _ _, x =>
      scal_mul ops x (ops.srecip (ops.ssqrt (norm2 ops x)))

/-- `ArrayVectorSpaceMut::mut_add` (src/lib.rs lines 111-113 and
134-138), with the mutation of `&mut self` made explicit: the function
returns the final value of the left operand.  Leaf is `*self += *rhs`;
array runs `mut_add` on every same-index pair. -/
def mut_add (ops : ScalarOps T) : {s : Shape} → Val T s → Val T s → Val T s
  | Shape.leaf, a, b => ops.sadd a b
  | Shape.arr _ _, x, y =>
      ⟨List.zipWith (mut_add ops) x.1 y.1, by simp [x.2, y.2]⟩

/-- `ArrayVectorSpaceMut::mut_sub` (src/lib.rs lines 114-116 and 139-143). -/
def mut_sub (ops : ScalarOps T) : {s : Shape} → Val T s → Val T s → Val T s
  | Shape.leaf, a, b => ops.ssub a b
  | Shape.arr _ _, x, y =>
      ⟨List.zipWith (mut_sub ops) x.1 y.1, by simp [x.2, y.2]⟩

/-- `ArrayVectorSpaceMut::mut_mul` (src/lib.rs lines 117-119 and 144-148). -/
def mut_mul (ops : ScalarOps T) : {s : Shape} → Val T s → Val T s → Val T s
  | Shape.leaf, a, b => ops.smul a b
  | Shape.arr _ _, x, y =>
      ⟨List.zipWith (mut_mul ops) x.1 y.1, by simp [x.2, y.2]⟩

/-- `ArrayVectorSpaceMut::mut_div` (src/lib.rs lines 120-122 and 149-153). -/
def mut_div (ops : ScalarOps T) : {s : Shape} → Val T s → Val T s → Val T s
  | Shape.leaf, a, b => ops.sdiv a b
  | Shape.arr _ _, x, y =>
      ⟨List.zipWith (mut_div ops) x.1 y.1, by simp [x.2, y.2]⟩

/-- `ArrayVectorSpaceMut::mut_scal_mul` (src/lib.rs lines 123-125 and
154-156): leaf is `*self *= rhs`; array distributes to sub-elements. -/
def mut_scal_mul (ops : ScalarOps T) : {s : Shape} → Val T s → T → Val T s
  | Shape.leaf, a, k => ops.smul a k
  | Shape.arr _ _, x, k =>
      ⟨x.1.map fun v => mut_scal_mul ops v k, by simp [x.2]⟩

/-- `ArrayVectorSpaceMut::mut_clamp` (src/lib.rs lines 126-128 and
157-159): leaf overwrites itself with `self.clamp(min, max)`; array
recurses. -/
def mut_clamp (ops : ScalarOps T) : {s : Shape} → Val T s → T → T → Val T s
  | Shape.leaf, a, lo, hi => ops.sclamp a lo hi
  | Shape.arr _ _, x, lo, hi =>
      ⟨x.1.map fun v => mut_clamp ops v lo hi, by simp [x.2]⟩

/-- `ArrayVectorSpaceMut::mut_normalized` (src/lib.rs lines 129-131 and
160-166): leaf sets itself to `1.0`; array computes
`n = self.norm2().sqrt()` via the owning trait and then runs
`self.mut_scal_mul(n.recip())`. -/
def mut_normalized (ops : ScalarOps T) : {s : Shape} → Val T s → Val T s
  | Shape.leaf, _ => ops.sone
  | Shape.arr _ _, x =>
      mut_scal_mul ops x (ops.srecip (ops.ssqrt (norm2 ops x)))

/-- The leaves of a value, in index order (depth-first, left to right). -/
def leaves : {s : Shape} → Val T s → List T
  | Shape.leaf, a => [a]
  | Shape.arr _ _, x => (x.1.map fun v => leaves v).flatten

/-- The value of a given shape whose leaves are all `0.0`. -/
def zeroVal (ops : ScalarOps T) : (s : Shape) → Val T s
  | Shape.leaf => ops.szero
  | Shape.arr n s => ⟨List.replicate n (zeroVal ops s), by simp⟩

/-- Sub-element `i` of an array value. -/
def idx {s : Shape} {n : Nat} (x : Val T (Shape.arr n s)) (i : Fin n) :
    Val T s :=
  x.1.get (Fin.cast x.2.symm i)

/-- Exact-arithmetic instantiation of the scalar primitives over ℚ:
`+ - * /` and the literals are the field operations, the std clamp
primitive (defined for `lo ≤ hi`) returns `max lo (min v hi)`.  `ssqrt`
is unused by the claims stated over ℚ and is instantiated by `0`. -/
def ratOps : ScalarOps ℚ where
  sadd := fun a b => a + b
  ssub := fun a b => a - b
  smul := fun a b => a * b
  sdiv := fun a b => a / b
  ssqrt := fun _ => 0
  srecip := fun a => a⁻¹
  sclamp := fun v lo hi => max lo (min v hi)
  szero := 0
  sone := 1

/-- Exact-arithmetic instantiation of the scalar primitives over ℝ,
with the genuine square root, for the normalization claims. -/
noncomputable def realOps : ScalarOps ℝ where
  sadd := fun a b => a + b
  ssub := fun a b => a - b
  smul := fun a b => a * b
  sdiv := fun a b => a / b
  ssqrt := Real.sqrt
  srecip := fun a => a⁻¹
  sclamp := fun v lo hi => max lo (min v hi)
  szero := 0
  sone := 1

theorem mut_add_eq_add (ops : ScalarOps T) : ∀ {s : Shape} (x y : Val T s),
    mut_add ops x y = add ops x y := by
  intro s
  induction s with
  | leaf => intro x y; rfl
  | arr n s ih =>
    intro x y
    apply Subtype.ext
    show List.zipWith (mut_add ops) x.1 y.1 = List.zipWith (add ops) x.1 y.1
    rw [show (mut_add ops : Val T s → Val T s → Val T s) = add ops from
      funext fun a => funext fun b => ih a b]

theorem mut_sub_eq_sub (ops : ScalarOps T) : ∀ {s : Shape} (x y : Val T s),
    mut_sub ops x y = sub ops x y := by
  intro s
  induction s with
  | leaf => intro x y; rfl
  | arr n s ih =>
    intro x y
    apply Subtype.ext
    show List.zipWith (mut_sub ops) x.1 y.1 = List.zipWith (sub ops) x.1 y.1
    rw [show (mut_sub ops : Val T s → Val T s → Val T s) = sub ops from
      funext fun a => funext fun b => ih a b]

theorem mut_mul_eq_mul (ops : ScalarOps T) : ∀ {s : Shape} (x y : Val T s),
    mut_mul ops x y = mul ops x y := by
  intro s
  induction s with
  | leaf => intro x y; rfl
  | arr n s ih =>
    intro x y
    apply Subtype.ext
    show List.zipWith (mut_mul ops) x.1 y.1 = List.zipWith (mul ops) x.1 y.1
    rw [show (mut_mul ops : Val T s → Val T s → Val T s) = mul ops from
      funext fun a => funext fun b => ih a b]

theorem mut_div_eq_div (ops : ScalarOps T) : ∀ {s : Shape} (x y : Val T s),
    mut_div ops x y = div ops x y := by
  intro s
  induction s with
  | leaf => intro x y; rfl
  | arr n s ih =>
    intro x y
    apply Subtype.ext
    show List.zipWith (mut_div ops) x.1 y.1 = List.zipWith (div ops) x.1 y.1
    rw [show (mut_div ops : Val T s → Val T s → Val T s) = div ops from
      funext fun a => funext fun b => ih a b]

theorem mut_scal_mul_eq_scal_mul (ops : ScalarOps T) :
    ∀ {s : Shape} (x : Val T s) (k : T),
    mut_scal_mul ops x k = scal_mul ops x k := by
  intro s
  induction s with
  | leaf => intro x k; rfl
  | arr n s ih =>
    intro x k
    apply Subtype.ext
    show x.1.map (fun v => mut_scal_mul ops v k) = x.1.map fun v => scal_mul ops v k
    rw [show (fun v : Val T s => mut_scal_mul ops v k) = fun v => scal_mul ops v k from
      funext fun a => ih a k]

theorem mut_clamp_eq_clamp (ops : ScalarOps T) :
    ∀ {s : Shape} (x : Val T s) (lo hi : T),
    mut_clamp ops x lo hi = clamp ops x lo hi := by
  intro s
  induction s with
  | leaf => intro x lo hi; rfl
  | arr n s ih =>
    intro x lo hi
    apply Subtype.ext
    show x.1.map (fun v => mut_clamp ops v lo hi) = x.1.map fun v => clamp ops v lo hi
    rw [show (fun v : Val T s => mut_clamp ops v lo hi) = fun v => clamp ops v lo hi from
      funext fun a => ih a lo hi]

theorem mut_normalized_eq_normalized (ops : ScalarOps T) :
    ∀ {s : Shape} (x : Val T s), mut_normalized ops x = normalized ops x := by
  intro s
  cases s with
  | leaf => intro x; rfl
  | arr n s =>
    intro x
    show mut_scal_mul ops x (ops.srecip (ops.ssqrt (norm2 ops x))) =
      scal_mul ops x (ops.srecip (ops.ssqrt (norm2 ops x)))
    exact mut_scal_mul_eq_scal_mul ops x _

/-- C1: for every scalar or (nested) fixed-size array value `x` and every
same-shape `y`, each in-place operation leaves `x` holding exactly the
value the corresponding owning operation returns: `mut_add` agrees with
`add`, and likewise for `sub`, `mul`, `div`, `scal_mul`, `clamp` and
`normalized`.  The theorem is parametric in the opaque scalar primitives
`ops`, so it holds bit-for-bit for the concrete IEEE f32/f64 primitives:
both variants apply the same primitives to the same operands in the same
order. -/
theorem claim_C1 (ops : ScalarOps T) {s : Shape} (x y : Val T s) (k lo hi : T) :
    mut_add ops x y = add ops x y ∧
    mut_sub ops x y = sub ops x y ∧
    mut_mul ops x y = mul ops x y ∧
    mut_div ops x y = div ops x y ∧
    mut_scal_mul ops x k = scal_mul ops x k ∧
    mut_clamp ops x lo hi = clamp ops x lo hi ∧
    mut_normalized ops x = normalized ops x :=
  ⟨mut_add_eq_add ops x y, mut_sub_eq_sub ops x y, mut_mul_eq_mul ops x y,
    mut_div_eq_div ops x y, mut_scal_mul_eq_scal_mul ops x k,
    mut_clamp_eq_clamp ops x lo hi, mut_normalized_eq_normalized ops x⟩

/-- C3: `norm2` is the provided trait method `self.dot(self)`, so for
every value of the abstraction, leaf or composite at any nesting depth,
`norm2 x` equals `dot x x` exactly. -/
theorem claim_C3 (ops : ScalarOps T) {s : Shape} (x : Val T s) :
    norm2 ops x = dot ops x x :=
  rfl

/-- C5: the leaf implementation of `normalized` returns the literal `1.0`
whatever the input value is, and the leaf `mut_normalized` overwrites the
scalar with `1.0`; in particular `(5.0).normalized() == 1.0` in the exact
model over ℚ. -/
theorem claim_C5 (ops : ScalarOps T) (v : Val T Shape.leaf) :
    normalized ops (s := Shape.leaf) v = ops.sone ∧
    mut_normalized ops (s := Shape.leaf) v = ops.sone ∧
    normalized ratOps (s := Shape.leaf) (5 : ℚ) = 1 ∧
    mut_normalized ratOps (s := Shape.leaf) (5 : ℚ) = 1 :=
  ⟨rfl, rfl, rfl, rfl⟩

/-- C8: on scalar leaves each owning operation is the corresponding
native scalar primitive: `dot` and `mul` are `*`, `add` is `+`, `sub` is
`-`, `div` is `/`, and `scal_mul` multiplies by the scalar argument;
stated for the opaque primitives and, concretely, for the exact model
over ℚ. -/
theorem claim_C8 (ops : ScalarOps T) (a b k : Val T Shape.leaf) (x y z : ℚ) :
    dot ops (s := Shape.leaf) a b = ops.smul a b ∧
    add ops (s := Shape.leaf) a b = ops.sadd a b ∧
    sub ops (s := Shape.leaf) a b = ops.ssub a b ∧
    mul ops (s := Shape.leaf) a b = ops.smul a b ∧
    div ops (s := Shape.leaf) a b = ops.sdiv a b ∧
    scal_mul ops (s := Shape.leaf) a k = ops.smul a k ∧
    dot ratOps (s := Shape.leaf) x y = x * y ∧
    add ratOps (s := Shape.leaf) x y = x + y ∧
    sub ratOps (s := Shape.leaf) x y = x - y ∧
    mul ratOps (s := Shape.leaf) x y = x * y ∧
    div ratOps (s := Shape.leaf) x y = x / y ∧
    scal_mul ratOps (s := Shape.leaf) x z = x * z :=
  ⟨rfl, rfl, rfl, rfl, rfl, rfl, rfl, rfl, rfl, rfl, rfl, rfl⟩

/-- C2: the composite `dot` pairs sub-elements by index, takes their
`dot`s in index order, and folds them with the scalar `+` from the
literal `0.0`, left to right. -/
theorem claim_C2 (ops : ScalarOps T) {n : Nat} {s : Shape}
    (x y : Val T (Shape.arr n s)) :
    dot ops x y =
      ((List.finRange n).map fun i =>
          dot ops (x.1.get (Fin.cast x.2.symm i)) (y.1.get (Fin.cast y.2.symm i))).foldl
        ops.sadd ops.szero := by
  show ((x.1.zip y.1).map fun p => dot ops p.1 p.2).foldl ops.sadd ops.szero = _
  congr 1
  apply List.ext_getElem
  · simp [x.2, y.2]
  · intro i h1 h2
    simp only [List.getElem_map, List.getElem_zip, List.getElem_finRange,
      List.get_eq_getElem, Fin.coe_cast]

theorem leaves_scal_mul (ops : ScalarOps T) : ∀ {s : Shape} (x : Val T s) (k : T),
    leaves (scal_mul ops x k) = (leaves x).map fun a => ops.smul a k := by
  intro s
  induction s with
  | leaf => intro x k; rfl
  | arr n s ih =>
    intro x k
    show ((x.1.map fun v => scal_mul ops v k).map fun v => leaves v).flatten =
      List.map (fun a => ops.smul a k) ((x.1.map fun v => leaves v).flatten)
    rw [List.map_map, List.map_flatten, List.map_map]
    congr 1
    exact List.map_congr_left fun a _ => ih a k

/-- The `[[1.0, 2.0], [3.0, 4.0]]` operand of the depth-2 example. -/
def ex22x : Val ℚ (Shape.arr 2 (Shape.arr 2 Shape.leaf)) :=
  ⟨[⟨[1, 2], rfl⟩, ⟨[3, 4], rfl⟩], rfl⟩

/-- The same-shape operand filled with `1.0`. -/
def ex22y : Val ℚ (Shape.arr 2 (Shape.arr 2 Shape.leaf)) :=
  ⟨[⟨[1, 1], rfl⟩, ⟨[1, 1], rfl⟩], rfl⟩

/-- The expected sum `[[2.0, 3.0], [4.0, 5.0]]` of the depth-2 example. -/
def ex22sum : Val ℚ (Shape.arr 2 (Shape.arr 2 Shape.leaf)) :=
  ⟨[⟨[2, 3], rfl⟩, ⟨[4, 5], rfl⟩], rfl⟩

/-- C6: composite `add`/`sub`/`mul`/`div` act pairwise on same-index
sub-elements, `scal_mul k` multiplies every leaf by the unchanged `k`,
and the recursion applies uniformly at depth 2: in the exact model over
ℚ, `[[1, 2], [3, 4]].add([[1, 1], [1, 1]]) == [[2, 3], [4, 5]]`. -/
theorem claim_C6 (ops : ScalarOps T) {n : Nat} {s : Shape}
    (x y : Val T (Shape.arr n s)) (i : Fin n) (k : T) :
    idx (add ops x y) i = add ops (idx x i) (idx y i) ∧
    idx (sub ops x y) i = sub ops (idx x i) (idx y i) ∧
    idx (mul ops x y) i = mul ops (idx x i) (idx y i) ∧
    idx (div ops x y) i = div ops (idx x i) (idx y i) ∧
    leaves (scal_mul ops x k) = (leaves x).map (fun a => ops.smul a k) ∧
    add ratOps ex22x ex22y = ex22sum := by
  have hex : add ratOps ex22x ex22y = ex22sum := by
    simp [add, ratOps, ex22x, ex22y, ex22sum, Subtype.ext_iff]
    norm_num
  refine ⟨?_, ?_, ?_, ?_, leaves_scal_mul ops x k, hex⟩ <;>
    simp [idx, add, sub, mul, div, List.get_eq_getElem, List.getElem_zipWith]

theorem leaves_clamp (ops : ScalarOps T) : ∀ {s : Shape} (x : Val T s) (lo hi : T),
    leaves (clamp ops x lo hi) = (leaves x).map fun e => ops.sclamp e lo hi := by
  intro s
  induction s with
  | leaf => intro x lo hi; rfl
  | arr n s ih =>
    intro x lo hi
    show ((x.1.map fun v => clamp ops v lo hi).map fun v => leaves v).flatten =
      List.map (fun e => ops.sclamp e lo hi) ((x.1.map fun v => leaves v).flatten)
    rw [List.map_map, List.map_flatten, List.map_map]
    congr 1
    exact List.map_congr_left fun a _ => ih a lo hi

/-- The `[-1.0, 0.5, 2.0]` operand of the clamp example. -/
def exClampIn : Val ℚ (Shape.arr 3 Shape.leaf) := ⟨[-1, 0.5, 2], rfl⟩

/-- The expected result `[0.0, 0.5, 1.0]` of clamping to `[0, 1]`. -/
def exClampOut : Val ℚ (Shape.arr 3 Shape.leaf) := ⟨[0, 0.5, 1], rfl⟩

/-- C7: composite `clamp` hands the same `min`/`max` to every sub-element
independently, so every leaf `e` of the input is replaced by the scalar
clamp of `e`; in the exact model over ℚ, where the scalar clamp primitive
for `min ≤ max` returns `max min (min e max)`, every result leaf equals
`max min (min e max)`, and `[-1, 0.5, 2].clamp(0, 1) == [0, 0.5, 1]`. -/
theorem claim_C7 (ops : ScalarOps T) {s : Shape} (x : Val T s)
    (lo hi : T) (y : Val ℚ s) (lo' hi' : ℚ) (h : lo' ≤ hi') :
    leaves (clamp ops x lo hi) = (leaves x).map (fun e => ops.sclamp e lo hi) ∧
    leaves (clamp ratOps y lo' hi') = (leaves y).map (fun e => max lo' (min e hi')) ∧
    clamp ratOps exClampIn 0 1 = exClampOut := by
  refine ⟨leaves_clamp ops x lo hi, leaves_clamp ratOps y lo' hi', ?_⟩
  simp [clamp, ratOps, exClampIn, exClampOut, Subtype.ext_iff]
  norm_num

theorem zipWithV_replicate {s : Shape} (f : Val T s → Val T s → Val T s)
    (c : Val T s) (l : List (Val T s)) (n : Nat) (hn : l.length = n) :
    List.zipWith f l (List.replicate n c) = l.map fun a => f a c := by
  induction l generalizing n with
  | nil => simp
  | cons a l ih =>
    cases n with
    | zero => simp at hn
    | succ m =>
      simp only [List.replicate_succ, List.zipWith_cons_cons, List.map_cons]
      rw [ih m (by simpa using hn)]

theorem leaves_div_zero (ops : ScalarOps T) : ∀ {s : Shape} (x : Val T s),
    leaves (div ops x (zeroVal ops s)) =
      (leaves x).map fun a => ops.sdiv a ops.szero := by
  intro s
  induction s with
  | leaf => intro x; rfl
  | arr n s ih =>
    intro x
    show ((List.zipWith (div ops) x.1 (List.replicate n (zeroVal ops s))).map
        (fun v => leaves v)).flatten =
      List.map (fun a => ops.sdiv a ops.szero) ((x.1.map fun v => leaves v).flatten)
    rw [zipWithV_replicate (div ops) (zeroVal ops s) x.1 n x.2,
      List.map_map, List.map_flatten, List.map_map]
    congr 1
    exact List.map_congr_left fun a _ => ih a

/-- C9: no operation returns an error value (in the embedding every
operation is a total function into the value type, mirroring the Rust
signatures, which return `Self`/`T` and never `Result`).  Dividing by a
same-shape value whose leaves are all `0.0` hands every leaf to the raw
scalar `/` primitive with a zero divisor — the result is whatever the
native primitive produces, with no interception; and `normalized` on a
composite whose `norm2` is `0.0` still runs the one unguarded code path,
passing `0.0` to the native `sqrt` and `recip` primitives and scaling by
their result. -/
theorem claim_C9 (ops : ScalarOps T) {s : Shape} (x : Val T s) :
    leaves (div ops x (zeroVal ops s)) =
      (leaves x).map (fun a => ops.sdiv a ops.szero) ∧
    (∀ {n : Nat} {t : Shape} (y : Val T (Shape.arr n t)),
      norm2 ops y = ops.szero →
      normalized ops y = scal_mul ops y (ops.srecip (ops.ssqrt ops.szero))) := by
  refine ⟨leaves_div_zero ops x, ?_⟩
  intro n t y h
  show scal_mul ops y (ops.srecip (ops.ssqrt (norm2 ops y))) = _
  rw [h]

/-- Modelled from the Rust standard library documentation of
`f32::clamp` / `f64::clamp` (the primitive the leaf `clamp` and
`mut_clamp` delegate to): the call asserts `min <= max` with non-NaN
bounds and panics when the assertion fails.  `true` means the call
panics; NaN is not representable in this exact-arithmetic model. -/
def stdClampPanics (lo hi : ℚ) : Bool :=
  decide (¬ lo ≤ hi)

/-- Whether evaluating the owning `clamp` (src/lib.rs lines 39-41 and
81-84) panics: the leaf delegates to the std scalar clamp primitive, the
array iterates over its sub-elements. -/
def clampPanics : {s : Shape} → Val ℚ s → ℚ → ℚ → Bool
  | Shape.leaf, _, lo, hi => stdClampPanics lo hi
  | Shape.arr _ _, x, lo, hi => x.1.any fun v => clampPanics v lo hi

/-- Whether evaluating `mut_clamp` (src/lib.rs lines 126-128 and
157-159) panics: the leaf overwrites itself with the result of the std
scalar clamp primitive, the array iterates over its sub-elements. -/
def mut_clampPanics : {s : Shape} → Val ℚ s → ℚ → ℚ → Bool
  | Shape.leaf, _, lo, hi => stdClampPanics lo hi
  | Shape.arr _ _, x, lo, hi => x.1.any fun v => mut_clampPanics v lo hi

/-- C10: `clamp` and `mut_clamp` bottom out in the std float clamp
primitive, which panics exactly when its assertion `min <= max` fails
(on a leaf with `min > max` both operations panic); under the
precondition `min ≤ max` (bounds non-NaN, which is automatic in the
exact model), neither `clamp` nor `mut_clamp` panics, for every value at
every nesting depth. -/
theorem claim_C10 (lo hi : ℚ) :
    (lo ≤ hi → ∀ {s : Shape} (x : Val ℚ s),
      clampPanics x lo hi = false ∧ mut_clampPanics x lo hi = false) ∧
    (hi < lo → ∀ v : Val ℚ Shape.leaf,
      clampPanics (s := Shape.leaf) v lo hi = true ∧
      mut_clampPanics (s := Shape.leaf) v lo hi = true) := by
  constructor
  · intro hle s
    induction s with
    | leaf =>
      intro x
      constructor <;> simp [clampPanics, mut_clampPanics, stdClampPanics, hle]
    | arr n s ih =>
      intro x
      constructor
      · show (x.1.any fun v => clampPanics v lo hi) = false
        simp only [List.any_eq_false]
        intro v _
        simpa using (ih v).1
      · show (x.1.any fun v => mut_clampPanics v lo hi) = false
        simp only [List.any_eq_false]
        intro v _
        simpa using (ih v).2
  · intro hlt v
    constructor <;>
      simp [clampPanics, mut_clampPanics, stdClampPanics, not_le.mpr hlt]

/-- Witness for C10 at concrete inputs: with bounds `0 ≤ 1` a depth-2
value does not panic, and with inverted bounds `1 > 0` the leaf clamp
panics. -/
theorem claim_C10_witness :
    ((0 : ℚ) ≤ 1 ∧
      clampPanics ex22x 0 1 = false ∧ mut_clampPanics ex22x 0 1 = false) ∧
    ((0 : ℚ) < 1 ∧
      clampPanics (s := Shape.leaf) (5 : ℚ) 1 0 = true ∧
      mut_clampPanics (s := Shape.leaf) (5 : ℚ) 1 0 = true) :=
  ⟨⟨by decide, (claim_C10 0 1).1 (by decide) ex22x⟩,
    ⟨by decide, (claim_C10 1 0).2 (by decide) (5 : ℚ)⟩⟩

theorem dot_arr_sum {n : Nat} {s : Shape} (x y : Val ℝ (Shape.arr n s)) :
    dot realOps x y = ((x.1.zip y.1).map fun p => dot realOps p.1 p.2).sum := by
  show ((x.1.zip y.1).map fun p => dot realOps p.1 p.2).foldl
      realOps.sadd realOps.szero = _
  rw [List.sum_eq_foldl]
  rfl

theorem dot_scal_real : ∀ {s : Shape} (c : ℝ) (x y : Val ℝ s),
    dot realOps (scal_mul realOps x c) (scal_mul realOps y c) =
      c * c * dot realOps x y := by
  intro s
  induction s with
  | leaf =>
    intro c x y
    show (x * c) * (y * c) = c * c * (x * y)
    ring
  | arr n s ih =>
    intro c x y
    rw [dot_arr_sum, dot_arr_sum]
    show (((x.1.map fun v => scal_mul realOps v c).zip
        (y.1.map fun v => scal_mul realOps v c)).map fun p => dot realOps p.1 p.2).sum =
      c * c * ((x.1.zip y.1).map fun p => dot realOps p.1 p.2).sum
    rw [List.zip_map, List.map_map]
    rw [show ((fun p : Val ℝ s × Val ℝ s => dot realOps p.1 p.2) ∘
        Prod.map (fun v => scal_mul realOps v c) fun v => scal_mul realOps v c) =
        (fun p : Val ℝ s × Val ℝ s => c * c * dot realOps p.1 p.2) from
      funext fun p => ih c p.1 p.2]
    exact List.sum_map_mul_left _ _ _

theorem norm2_scal_real {s : Shape} (c : ℝ) (x : Val ℝ s) :
    norm2 realOps (scal_mul realOps x c) = c * c * norm2 realOps x :=
  dot_scal_real c x x

theorem norm2_normalized_real {n : Nat} {s : Shape} (x : Val ℝ (Shape.arr n s))
    (h : 0 < norm2 realOps x) : norm2 realOps (normalized realOps x) = 1 := by
  have hx : normalized realOps x =
      scal_mul realOps x ((Real.sqrt (norm2 realOps x))⁻¹) := rfl
  rw [hx, norm2_scal_real, ← mul_inv, Real.mul_self_sqrt h.le]
  exact inv_mul_cancel₀ (ne_of_gt h)

/-- The `[3.0, 4.0]` vector of the normalization example. -/
noncomputable def v34 : Val ℝ (Shape.arr 2 Shape.leaf) := ⟨[3, 4], rfl⟩

/-- The expected normalization result `[0.6, 0.8]`. -/
noncomputable def v68 : Val ℝ (Shape.arr 2 Shape.leaf) := ⟨[0.6, 0.8], rfl⟩

theorem norm2_v34 : norm2 realOps v34 = 25 := by
  show ((0 : ℝ) + 3 * 3) + 4 * 4 = 25
  norm_num

theorem normalized_v34 : normalized realOps v34 = v68 := by
  have h5 : Real.sqrt (norm2 realOps v34) = 5 := by
    rw [norm2_v34, show (25 : ℝ) = 5 ^ 2 by norm_num,
      Real.sqrt_sq (by norm_num : (0 : ℝ) ≤ 5)]
  show scal_mul realOps v34 ((Real.sqrt (norm2 realOps v34))⁻¹) = v68
  rw [h5]
  apply Subtype.ext
  show [(3 : ℝ) * 5⁻¹, (4 : ℝ) * 5⁻¹] = [(0.6 : ℝ), 0.8]
  norm_num

/-- C4: composite `normalized` computes `n = sqrt(norm2 self)` and
returns `self.scal_mul(recip n)`; in the exact model over ℝ,
`[3.0, 4.0].normalized() == [0.6, 0.8]`, and whenever `norm2 x` is
strictly positive, `norm2 (normalized x) = 1` exactly. -/
theorem claim_C4 {n : Nat} {s : Shape} (x : Val ℝ (Shape.arr n s)) :
    normalized realOps x =
      scal_mul realOps x ((Real.sqrt (norm2 realOps x))⁻¹) ∧
    normalized realOps v34 = v68 ∧
    (0 < norm2 realOps x → norm2 realOps (normalized realOps x) = 1) :=
  ⟨rfl, normalized_v34, fun h => norm2_normalized_real x h⟩

/-- Witness for C4 at `x = [3.0, 4.0]`: its `norm2` is `25 > 0` and the
normalized vector has `norm2` exactly `1`. -/
theorem claim_C4_witness :
    (0 : ℝ) < norm2 realOps v34 ∧
    norm2 realOps (normalized realOps v34) = 1 :=
  ⟨by rw [norm2_v34]; norm_num, (claim_C4 v34).2.2 (by rw [norm2_v34]; norm_num)⟩

/-- Witness for C7 at the concrete clamp example: the bounds `0 ≤ 1`
hold and every leaf of `[-1, 0.5, 2].clamp(0, 1)` is `max 0 (min e 1)`. -/
theorem claim_C7_witness :
    (0 : ℚ) ≤ 1 ∧
    leaves (clamp ratOps exClampIn 0 1) =
      (leaves exClampIn).map (fun e => max 0 (min e 1)) :=
  ⟨by decide, (claim_C7 ratOps exClampIn 0 1 exClampIn 0 1 (by decide)).2.1⟩

/-- The zero vector `[0.0, 0.0]` used by the C9 witness. -/
def z2 : Val ℚ (Shape.arr 2 Shape.leaf) := ⟨[0, 0], rfl⟩

/-- Witness for C9 at `y = [0.0, 0.0]`: its `norm2` is `0.0` and
`normalized` still runs the unguarded scale-by-`recip (sqrt 0)` path. -/
theorem claim_C9_witness :
    norm2 ratOps z2 = ratOps.szero ∧
    normalized ratOps z2 =
      scal_mul ratOps z2 (ratOps.srecip (ratOps.ssqrt ratOps.szero)) := by
  have hz : norm2 ratOps z2 = ratOps.szero := by
    show ((0 : ℚ) + 0 * 0) + 0 * 0 = 0
    norm_num
  exact ⟨hz, (claim_C9 ratOps z2).2 z2 hz⟩

end AVS
